import Mathlib

/-!
Shallow embedding of `src/main.py` (melvinalmonte/branches-script), a client
that lists the branches of a repository through a paginated HTTP API and then
fetches per-branch detail records.

Modelling conventions:
* An HTTP response is `Except Err payload`: `Except.error` is a non-2xx status
  (`raise_for_status`) or malformed JSON, `Except.ok` a parsed body.
* The environment of a run is a pair of response functions: `fetch : Nat →
  PageResult` giving each listing page's response, and `detailOf : String →
  DetailResult` giving the detail response for a branch name (the detail URL
  is keyed by the branch name only).
* Thread-pool nondeterminism (`concurrent.futures.as_completed`) is made
  explicit as an `order` argument: the list of page numbers (resp. branch
  refs) in the order in which their futures are consumed by the merging loop.
  All futures are submitted up front, so `order` ranges over permutations of
  the submitted task set.
* Python `str.startswith` is a character-level prefix test, embedded on
  `String.data`.
-/

deriving instance DecidableEq for Except

namespace BranchesScript

/-- One element of a listing-page response: `{name, commit: {sha}}`. -/
structure BranchJson where
  name : String
  sha : String
deriving DecidableEq

/-- The record built by `get_branches` for each listed branch:
`{'branch_name': branch['name'], 'commit_sha': branch['commit']['sha']}`. -/
structure BranchRef where
  branch_name : String
  commit_sha : String
deriving DecidableEq

/-- Opaque error payload of a failed request (`requests` exception). -/
abbrev Err : Type := Unit

/-- Response of one listing-page request. -/
abbrev PageResult : Type := Except Err (List BranchJson)

/-- The dict comprehension of `get_branches` applied to one listed branch. -/
def refOfJson (b : BranchJson) : BranchRef :=
  BranchRef.mk b.name b.sha

/-- The `for future in as_completed(...)` loop of `get_branches`
(src/main.py lines 41-51), consuming page results in completion order:
a failed page is logged and skipped (`except ... continue-with-next`),
an empty page `break`s out of the loop, and a non-empty page appends its
branches. Returns the branches appended by the loop. -/
def mergeLoop : List PageResult → List BranchRef
  | [] => []
  | Except.error _ :: rest => mergeLoop rest
  | Except.ok bs :: rest =>
    if bs = [] then [] else bs.map refOfJson ++ mergeLoop rest

/-- The page numbers submitted to the pagination thread pool
(src/main.py lines 35-39): `range(2, 11)` exactly when page 1 held 100
items, nothing otherwise. -/
def dispatchedPages (page1 : List BranchJson) : List Nat :=
  if page1.length = 100 then List.range' 2 9 else []

/-- `get_branches` (src/main.py lines 15-53). `fetch p` is the response to
the page-`p` listing request; `order` is the completion order in which
`as_completed` yields the page-2..10 futures. Page 1 is fetched
synchronously; a page-1 failure propagates (`raise_for_status`). -/
def get_branches (fetch : Nat → PageResult) (order : List Nat) :
    Except Err (List BranchRef) :=
  match fetch 1 with
  | Except.error e => Except.error e
  | Except.ok bs =>
    if bs.length = 100 then
      Except.ok (bs.map refOfJson ++ mergeLoop (order.map fetch))
    else
      Except.ok (bs.map refOfJson)

/-- Refs contributed by one page result once the merging loop reaches it and
no earlier empty page stopped the loop: nothing for a failed page, the page's
branches otherwise. -/
def pageRefs : PageResult → List BranchRef
  | Except.error _ => []
  | Except.ok bs => bs.map refOfJson

/-- Parsed body of one branch-detail response. Each field the code reads is
an `Option`: `none` embeds a missing key, whose lookup raises `KeyError`
inside the per-branch `try`. -/
structure DetailJson where
  author_login : Option String
  commit_date : Option String
  commit_message : Option String
  protected_flag : Option Bool
deriving DecidableEq

/-- Response of one branch-detail request. -/
abbrev DetailResult : Type := Except Err DetailJson

/-- The record built by `fetch_branch_details` for one branch. -/
structure BranchDetail where
  author : String
  last_updated : String
  is_merged : Bool
  is_protected : Bool
  branch_name : String
  commit_sha : String
deriving DecidableEq

/-- Python `msg.startswith('Merge')`: a case-sensitive character-level
prefix test. -/
def startsWithMerge (msg : String) : Bool :=
  "Merge".data.isPrefixOf msg.data

/-- `fetch_branch_details` (src/main.py lines 58-75). Any request failure or
missing field is caught by the surrounding `try` and yields `None`; the
`**branch` spread copies `branch_name` and `commit_sha` from the input ref. -/
def fetch_branch_details (detailOf : String → DetailResult) (branch : BranchRef) :
    Option BranchDetail :=
  match detailOf branch.branch_name with
  | Except.error _ => none
  | Except.ok d =>
    match d.author_login, d.commit_date, d.commit_message, d.protected_flag with
    | some login, some date, some msg, some prot =>
      some (BranchDetail.mk login date (startsWithMerge msg) prot
        branch.branch_name branch.commit_sha)
    | _, _, _, _ => none

/-- `get_branch_details` (src/main.py lines 55-97): one detail task per input
ref, results appended in completion order (`order`, a permutation of the
input list), `None` results dropped by the `if result:` truthiness test
(the produced dict is never empty, so truthiness equals non-`None`). -/
def get_branch_details (detailOf : String → DetailResult) (order : List BranchRef) :
    List BranchDetail :=
  order.filterMap (fetch_branch_details detailOf)

/-- The detail requests submitted to the thread pool (src/main.py lines
80-83): one per input ref, keyed by its branch name. -/
def detailRequests (branches : List BranchRef) : List String :=
  branches.map (fun b => b.branch_name)

/-- The `__main__` pipeline (src/main.py lines 104-109) projected to the
branch names of the final records: `get_branches` followed by
`get_branch_details`, the detail completion order taken as the listing
order itself (one legal completion order). A fatal listing failure yields
no output. -/
def pipelineNames (fetch : Nat → PageResult) (pageOrder : List Nat)
    (detailOf : String → DetailResult) : List String :=
  match get_branches fetch pageOrder with
  | Except.error _ => []
  | Except.ok br => (get_branch_details detailOf br).map (fun d => d.branch_name)

/-! Concrete environments used by witnesses and counterexamples. -/

/-- A full first page: 100 listed branches. -/
def cexPage1 : List BranchJson := List.replicate 100 (BranchJson.mk "b" "s")

/-- Responses with a full page 1, an empty page 2, and every later page
holding the single branch `feat-x`. -/
def cexFetch : Nat → PageResult := fun p =>
  if p = 1 then Except.ok cexPage1
  else if p = 2 then Except.ok []
  else Except.ok [BranchJson.mk "feat-x" "sha3"]

/-- Responses with a full page 1 and every later page holding the single
branch `x` (no empty pages). -/
def regFetch : Nat → PageResult := fun p =>
  if p = 1 then Except.ok cexPage1
  else Except.ok [BranchJson.mk "x" "y"]

/-- A listing whose first page holds a single branch. -/
def smallFetch : Nat → PageResult := fun p =>
  if p = 1 then Except.ok [BranchJson.mk "main" "a1"] else Except.ok []

/-- Every branch-detail request fails. -/
def errFetch : Nat → PageResult := fun _ => Except.error ()

/-- Detail responses that always succeed with a non-merge commit message. -/
def cexDetailOf : String → DetailResult := fun _ =>
  Except.ok (DetailJson.mk (some "alice") (some "2024-01-01T00:00:00Z")
    (some "Fix bug") (some false))

/-- Detail responses whose commit message carries the `Merge` prefix. -/
def mergeDetailOf : String → DetailResult := fun _ =>
  Except.ok (DetailJson.mk (some "alice") (some "2024-01-01T00:00:00Z")
    (some "Merge pull request #1") (some false))

/-! Helper lemmas. -/

/-- A produced record copies `branch_name` and `commit_sha` from the ref the
fetch was issued for. -/
theorem fetch_keeps_ref (detailOf : String → DetailResult) (b : BranchRef)
    (d : BranchDetail) (h : fetch_branch_details detailOf b = some d) :
    d.branch_name = b.branch_name ∧ d.commit_sha = b.commit_sha := by
  unfold fetch_branch_details at h
  rcases hd : detailOf b.branch_name with e | j
  · rw [hd] at h; exact absurd h (by simp)
  · rw [hd] at h
    rcases j with ⟨al, cd, cm, pf⟩
    cases al <;> cases cd <;> cases cm <;> cases pf <;> simp_all
    subst h
    exact ⟨rfl, rfl⟩

/-- Once the merging loop reaches an empty page it stops: later results are
not incorporated. -/
theorem mergeLoop_stops_at_empty (xs ys : List PageResult)
    (hx : ∀ r ∈ xs, r ≠ Except.ok []) :
    mergeLoop (xs ++ Except.ok [] :: ys) = mergeLoop xs := by
  induction xs with
  | nil => simp [mergeLoop]
  | cons r rest ih =>
    have hr := hx r (List.mem_cons_self r rest)
    have hrest : ∀ s ∈ rest, s ≠ Except.ok [] :=
      fun s hs => hx s (List.mem_cons_of_mem _ hs)
    match r with
    | Except.error e => simpa [mergeLoop] using ih hrest
    | Except.ok bs =>
      have hbs : bs ≠ [] := by intro hb; exact hr (by rw [hb])
      simp [mergeLoop, hbs, ih hrest]

/-- With no empty page among the consumed results, the merging loop keeps
every page's contribution. -/
theorem mergeLoop_flat_of_no_empty (xs : List PageResult)
    (hx : ∀ r ∈ xs, r ≠ Except.ok []) :
    mergeLoop xs = xs.flatMap pageRefs := by
  induction xs with
  | nil => simp [mergeLoop]
  | cons r rest ih =>
    have hr := hx r (List.mem_cons_self r rest)
    have hrest : ∀ s ∈ rest, s ≠ Except.ok [] :=
      fun s hs => hx s (List.mem_cons_of_mem _ hs)
    match r with
    | Except.error e => simp [mergeLoop, pageRefs, ih hrest]
    | Except.ok bs =>
      have hbs : bs ≠ [] := by intro hb; exact hr (by rw [hb])
      simp [mergeLoop, pageRefs, hbs, ih hrest]

/-! Claim theorems. -/

/-- C5: if the page-1 listing request fails, `get_branches` propagates the
error to its caller and returns no partial result. -/
theorem first_page_error_aborts (fetch : Nat → PageResult) (order : List Nat)
    (e : Err) (h : fetch 1 = Except.error e) :
    get_branches fetch order = Except.error e := by
  simp [get_branches, h]

/-- Witness for C5 at a concrete failing environment. -/
theorem first_page_error_aborts_witness :
    get_branches errFetch [2, 3] = Except.error () :=
  first_page_error_aborts errFetch [2, 3] () rfl

/-- C9: the output of `get_branches` always begins with the page-1 branches,
in page-1 order, before anything contributed by the concurrently fetched
pages: the returned list is the page-1 refs followed by whatever the merging
loop appended (nothing when page 1 was short). -/
theorem page_one_refs_lead_output (fetch : Nat → PageResult) (order : List Nat)
    (page1 : List BranchJson) (h : fetch 1 = Except.ok page1) :
    get_branches fetch order =
      Except.ok (page1.map refOfJson ++
        (if page1.length = 100 then mergeLoop (order.map fetch) else [])) := by
  by_cases hl : page1.length = 100 <;> simp [get_branches, h, hl]

/-- Witness for C9 at a concrete environment with a full first page. -/
theorem page_one_refs_lead_output_witness :
    get_branches regFetch [2, 3, 4, 5, 6, 7, 8, 9, 10] =
      Except.ok (cexPage1.map refOfJson ++
        (if cexPage1.length = 100 then
          mergeLoop (([2, 3, 4, 5, 6, 7, 8, 9, 10] : List Nat).map regFetch)
        else [])) :=
  page_one_refs_lead_output regFetch [2, 3, 4, 5, 6, 7, 8, 9, 10] cexPage1 rfl

/-- C4: pages 2 through 10, and no others, are dispatched exactly when page 1
returned exactly 100 items; a short first page issues no further page
requests, so at most 10 pages are ever fetched. -/
theorem pages_2_to_10_dispatched_iff_first_page_full (fetch : Nat → PageResult)
    (order : List Nat) (page1 : List BranchJson)
    (h : fetch 1 = Except.ok page1) :
    (page1.length = 100 → dispatchedPages page1 = [2, 3, 4, 5, 6, 7, 8, 9, 10]) ∧
    (page1.length ≠ 100 →
      dispatchedPages page1 = [] ∧
      get_branches fetch order = Except.ok (page1.map refOfJson)) ∧
    (∀ p ∈ dispatchedPages page1, 2 ≤ p ∧ p ≤ 10) ∧
    (dispatchedPages page1).length + 1 ≤ 10 := by
  by_cases hl : page1.length = 100
  · simp [dispatchedPages, hl, get_branches, h]
    decide
  · simp [dispatchedPages, hl, get_branches, h]

/-- Witness for C4 at a one-branch first page: no page is dispatched and the
output is just the page-1 refs. -/
theorem pages_2_to_10_dispatched_iff_first_page_full_witness :
    dispatchedPages [BranchJson.mk "main" "a1"] = [] ∧
    get_branches smallFetch [2, 3] =
      Except.ok (([BranchJson.mk "main" "a1"]).map refOfJson) :=
  (pages_2_to_10_dispatched_iff_first_page_full smallFetch [2, 3]
    [BranchJson.mk "main" "a1"] rfl).2.1 (by decide)

/-- C2: a produced record's `is_merged` is true exactly when the raw commit
message of the detail response starts with the case-sensitive prefix
`Merge`; in particular the check accepts `Merge pull request #1` and rejects
`merge foo` and `Fix bug`. -/
theorem is_merged_iff_message_has_Merge_head :
    (∀ (detailOf : String → DetailResult) (b : BranchRef) (j : DetailJson)
        (msg : String) (d : BranchDetail),
        detailOf b.branch_name = Except.ok j → j.commit_message = some msg →
        fetch_branch_details detailOf b = some d →
        (d.is_merged = true ↔ startsWithMerge msg = true)) ∧
    startsWithMerge "Merge pull request #1" = true ∧
    startsWithMerge "merge foo" = false ∧
    startsWithMerge "Fix bug" = false ∧
    (fetch_branch_details mergeDetailOf (BranchRef.mk "m" "s")).map
      (fun d => d.is_merged) = some true ∧
    (fetch_branch_details cexDetailOf (BranchRef.mk "m" "s")).map
      (fun d => d.is_merged) = some false := by
  refine ⟨?_, by decide, by decide, by decide, by decide, by decide⟩
  intro detailOf b j msg d hj hmsg hd
  unfold fetch_branch_details at hd
  rw [hj] at hd
  rcases j with ⟨al, cd, cm, pf⟩
  cases al <;> cases cd <;> cases cm <;> cases pf <;> simp_all
  subst hd
  simp

/-- Witness for C2: the general clause applied at a concrete merge-commit
response. -/
theorem is_merged_iff_message_has_Merge_head_witness :
    (BranchDetail.mk "alice" "2024-01-01T00:00:00Z"
        (startsWithMerge "Merge pull request #1") false "m" "s").is_merged = true ↔
      startsWithMerge "Merge pull request #1" = true :=
  is_merged_iff_message_has_Merge_head.1 mergeDetailOf (BranchRef.mk "m" "s")
    (DetailJson.mk (some "alice") (some "2024-01-01T00:00:00Z")
      (some "Merge pull request #1") (some false))
    "Merge pull request #1" _ rfl rfl rfl

/-- C7: a successful detail fetch copies `author` from the response's
`commit.author.login`, `last_updated` verbatim from
`commit.commit.author.date`, and `is_protected` verbatim from `protected`. -/
theorem detail_fields_taken_verbatim (detailOf : String → DetailResult)
    (b : BranchRef) (login date msg : String) (prot : Bool)
    (h : detailOf b.branch_name =
      Except.ok (DetailJson.mk (some login) (some date) (some msg) (some prot))) :
    fetch_branch_details detailOf b =
      some (BranchDetail.mk login date (startsWithMerge msg) prot
        b.branch_name b.commit_sha) := by
  unfold fetch_branch_details
  rw [h]

/-- Witness for C7 at a concrete detail response. -/
theorem detail_fields_taken_verbatim_witness :
    fetch_branch_details cexDetailOf (BranchRef.mk "main" "a1") =
      some (BranchDetail.mk "alice" "2024-01-01T00:00:00Z"
        (startsWithMerge "Fix bug") false "main" "a1") :=
  detail_fields_taken_verbatim cexDetailOf (BranchRef.mk "main" "a1")
    "alice" "2024-01-01T00:00:00Z" "Fix bug" false rfl

/-- C3: every output record of `get_branch_details` carries the
`branch_name`/`commit_sha` pair of an input ref it was fetched for, and each
input ref whose fetch succeeds contributes exactly one record — duplicates
are not deduplicated, as the output length equals the count of successful
input refs. -/
theorem details_trace_to_input_refs (detailOf : String → DetailResult)
    (order : List BranchRef) :
    (∀ d ∈ get_branch_details detailOf order,
        ∃ b, b ∈ order ∧ d.branch_name = b.branch_name ∧
          d.commit_sha = b.commit_sha ∧
          fetch_branch_details detailOf b = some d) ∧
    (get_branch_details detailOf order).length =
      order.countP (fun b => (fetch_branch_details detailOf b).isSome) := by
  constructor
  · intro d hd
    rw [get_branch_details, List.mem_filterMap] at hd
    rcases hd with ⟨b, hb, hfb⟩
    rcases fetch_keeps_ref detailOf b d hfb with ⟨hn, hs⟩
    exact ⟨b, hb, hn, hs, hfb⟩
  · induction order with
    | nil => rfl
    | cons b rest ih =>
      rcases hfb : fetch_branch_details detailOf b with _ | d <;>
        simp [get_branch_details, List.filterMap_cons, hfb, List.countP_cons,
          ih, get_branch_details] <;>
      simp [get_branch_details] at ih <;> omega

/-- Witness for C3 on a duplicated input ref: both copies yield a record. -/
theorem details_trace_to_input_refs_witness :
    (get_branch_details cexDetailOf
        [BranchRef.mk "main" "a1", BranchRef.mk "main" "a1"]).length =
      ([BranchRef.mk "main" "a1", BranchRef.mk "main" "a1"]).countP
        (fun b => (fetch_branch_details cexDetailOf b).isSome) :=
  (details_trace_to_input_refs cexDetailOf
    [BranchRef.mk "main" "a1", BranchRef.mk "main" "a1"]).2

/-- C10: `get_branch_details` yields at most one record per input ref, so the
output is never longer than the input; the empty input gives the empty
output and submits no detail request. -/
theorem details_at_most_one_per_ref (detailOf : String → DetailResult)
    (branches order : List BranchRef) (h : order.Perm branches) :
    (get_branch_details detailOf order).length ≤ branches.length ∧
    get_branch_details detailOf ([] : List BranchRef) = [] ∧
    detailRequests ([] : List BranchRef) = [] := by
  refine ⟨?_, rfl, rfl⟩
  calc (get_branch_details detailOf order).length
      ≤ order.length := List.length_filterMap_le _ _
    _ = branches.length := h.length_eq

/-- Witness for C10 at a concrete one-ref input. -/
theorem details_at_most_one_per_ref_witness :
    (get_branch_details cexDetailOf [BranchRef.mk "main" "a1"]).length ≤
      ([BranchRef.mk "main" "a1"]).length :=
  (details_at_most_one_per_ref cexDetailOf [BranchRef.mk "main" "a1"]
    [BranchRef.mk "main" "a1"] (List.Perm.refl _)).1

/-- C6: only the page-1 failure is fatal. With page 1 successful,
`get_branches` always returns a result; a failed page is skipped and the
loop goes on merging later results; a failed detail request or a response
missing any read field yields `None`, and dropping that one ref leaves the
other records of `get_branch_details` unchanged. -/
theorem non_first_page_failures_nonfatal :
    (∀ (fetch : Nat → PageResult) (order : List Nat) (bs : List BranchJson),
        fetch 1 = Except.ok bs → (get_branches fetch order).isOk = true) ∧
    (∀ (e : Err) (rest : List PageResult),
        mergeLoop (Except.error e :: rest) = mergeLoop rest) ∧
    (∀ (detailOf : String → DetailResult) (b : BranchRef) (e : Err),
        detailOf b.branch_name = Except.error e →
        fetch_branch_details detailOf b = none) ∧
    (∀ (detailOf : String → DetailResult) (b : BranchRef) (j : DetailJson),
        detailOf b.branch_name = Except.ok j →
        (j.author_login = none ∨ j.commit_date = none ∨
          j.commit_message = none ∨ j.protected_flag = none) →
        fetch_branch_details detailOf b = none) ∧
    (∀ (detailOf : String → DetailResult) (l1 l2 : List BranchRef)
        (b : BranchRef), fetch_branch_details detailOf b = none →
        get_branch_details detailOf (l1 ++ b :: l2) =
          get_branch_details detailOf (l1 ++ l2)) := by
  refine ⟨?_, fun e rest => rfl, ?_, ?_, ?_⟩
  · intro fetch order bs h
    by_cases hl : bs.length = 100 <;>
      simp [get_branches, h, hl, Except.isOk, Except.toBool]
  · intro detailOf b e h
    unfold fetch_branch_details
    rw [h]
  · intro detailOf b j hj hnone
    unfold fetch_branch_details
    rw [hj]
    rcases j with ⟨al, cd, cm, pf⟩
    rcases hnone with h | h | h | h <;> simp_all
  · intro detailOf l1 l2 b hb
    simp [get_branch_details, List.filterMap_append, List.filterMap_cons, hb]

/-- Witness for C6: page-1 success keeps the run alive even though page 2
fails, and a failing detail response produces no record. -/
theorem non_first_page_failures_nonfatal_witness :
    (get_branches cexFetch [2, 3]).isOk = true ∧
    fetch_branch_details (fun _ => Except.error ()) (BranchRef.mk "dev" "b2") =
      none :=
  ⟨non_first_page_failures_nonfatal.1 cexFetch [2, 3] cexPage1 rfl,
   non_first_page_failures_nonfatal.2.2.1 (fun _ => Except.error ())
     (BranchRef.mk "dev" "b2") () rfl⟩

/-- C1 counterexample: with page 1 full, page 2 empty and page 3 carrying the
branch `feat-x`, a completion order that yields page 2 first makes
`get_branches` return only the page-1 branches — page 3's successful,
already-dispatched result is not incorporated, refuting the claim that an
empty page does not terminate the merging of sibling results. -/
theorem empty_page_break_drops_sibling :
    cexFetch 2 = Except.ok [] ∧
    cexFetch 3 = Except.ok [BranchJson.mk "feat-x" "sha3"] ∧
    get_branches cexFetch [2, 3, 4, 5, 6, 7, 8, 9, 10] =
      Except.ok (cexPage1.map refOfJson) ∧
    BranchRef.mk "feat-x" "sha3" ∉ cexPage1.map refOfJson := by
  decide

/-- C1 amended: consuming an empty page result terminates the merging loop.
Sibling pages whose results were consumed before the empty page keep their
contribution (every branch of a successful earlier-consumed page is in the
output); results that would be consumed after the empty page are dropped,
although their requests were dispatched and not cancelled. -/
theorem empty_page_terminates_merge (fetch : Nat → PageResult)
    (o1 o2 : List Nat) (p : Nat) (page1 : List BranchJson)
    (h1 : fetch 1 = Except.ok page1) (hlen : page1.length = 100)
    (hp : fetch p = Except.ok [])
    (hno : ∀ q ∈ o1, fetch q ≠ Except.ok []) :
    get_branches fetch (o1 ++ p :: o2) =
      Except.ok (page1.map refOfJson ++ (o1.map fetch).flatMap pageRefs) ∧
    (∀ q ∈ o1, ∀ bs, fetch q = Except.ok bs → ∀ b ∈ bs,
      refOfJson b ∈ (o1.map fetch).flatMap pageRefs) := by
  have hx : ∀ r ∈ o1.map fetch, r ≠ Except.ok [] := by
    intro r hr
    rcases List.mem_map.mp hr with ⟨q, hq, rfl⟩
    exact hno q hq
  constructor
  · simp only [get_branches, h1]
    rw [if_pos hlen, List.map_append, List.map_cons, hp,
      mergeLoop_stops_at_empty _ _ hx, mergeLoop_flat_of_no_empty _ hx]
  · intro q hq bs hbs b hb
    rw [List.mem_flatMap]
    refine ⟨Except.ok bs, ?_, ?_⟩
    · rw [← hbs]
      exact List.mem_map_of_mem fetch hq
    · exact List.mem_map_of_mem refOfJson hb

/-- Witness for the amended C1: pages 3 and 4 are consumed before the empty
page 2, so their branches survive the break. -/
theorem empty_page_terminates_merge_witness :
    get_branches cexFetch ([3, 4] ++ 2 :: [5, 6, 7, 8, 9, 10]) =
      Except.ok (cexPage1.map refOfJson ++
        (([3, 4] : List Nat).map cexFetch).flatMap pageRefs) :=
  (empty_page_terminates_merge cexFetch [3, 4] [5, 6, 7, 8, 9, 10] 2 cexPage1
    (by decide) (by decide) (by decide) (by decide)).1

/-- C8 counterexample: two runs over identical responses, differing only in
the order in which `as_completed` yields the page futures, produce different
branch-name sets — the run that consumes the empty page 2 first loses
`feat-x`, the run that consumes it last keeps it. -/
theorem scheduling_changes_name_set :
    ([3, 4, 5, 6, 7, 8, 9, 10, 2] : List Nat).Perm [2, 3, 4, 5, 6, 7, 8, 9, 10] ∧
    "feat-x" ∈ pipelineNames cexFetch [3, 4, 5, 6, 7, 8, 9, 10, 2] cexDetailOf ∧
    "feat-x" ∉ pipelineNames cexFetch [2, 3, 4, 5, 6, 7, 8, 9, 10] cexDetailOf := by
  decide

/-- C8 amended: when no consumed page result is an empty array (and page-level
responses are identical across the two runs), the pipeline is deterministic
up to ordering — any two completion orders of the page futures and of the
detail futures yield output lists with the same set of branch names. -/
theorem name_set_deterministic_without_empty_pages (fetch : Nat → PageResult)
    (detailOf : String → DetailResult) (ord1 ord2 : List Nat)
    (hperm : ord1.Perm ord2) (hne : ∀ p ∈ ord1, fetch p ≠ Except.ok [])
    (br1 br2 dord1 dord2 : List BranchRef)
    (h1 : get_branches fetch ord1 = Except.ok br1)
    (h2 : get_branches fetch ord2 = Except.ok br2)
    (hd1 : dord1.Perm br1) (hd2 : dord2.Perm br2) (n : String) :
    (n ∈ (get_branch_details detailOf dord1).map (fun d => d.branch_name)) ↔
    (n ∈ (get_branch_details detailOf dord2).map (fun d => d.branch_name)) := by
  have hbr : br1.Perm br2 := by
    rcases hf : fetch 1 with e | bs
    · rw [get_branches, hf] at h1
      exact absurd h1 (by simp)
    · by_cases hl : bs.length = 100
      · have hx1 : ∀ r ∈ ord1.map fetch, r ≠ Except.ok [] := by
          intro r hr
          rcases List.mem_map.mp hr with ⟨q, hq, rfl⟩
          exact hne q hq
        have hx2 : ∀ r ∈ ord2.map fetch, r ≠ Except.ok [] := by
          intro r hr
          rcases List.mem_map.mp hr with ⟨q, hq, rfl⟩
          exact hne q (hperm.mem_iff.mpr hq)
        simp only [get_branches, hf] at h1 h2
        rw [if_pos hl] at h1 h2
        injection h1 with h1
        injection h2 with h2
        rw [← h1, ← h2, mergeLoop_flat_of_no_empty _ hx1,
          mergeLoop_flat_of_no_empty _ hx2]
        exact List.Perm.append_left _ ((hperm.map fetch).flatMap_right pageRefs)
      · simp only [get_branches, hf] at h1 h2
        rw [if_neg hl] at h1 h2
        injection h1 with h1
        injection h2 with h2
        rw [← h1, ← h2]
  have hd : dord1.Perm dord2 := hd1.trans (hbr.trans hd2.symm)
  exact List.Perm.mem_iff
    ((hd.filterMap (fetch_branch_details detailOf)).map (fun d => d.branch_name))

/-- Witness for the amended C8: all later pages of `regFetch` are non-empty,
so two different completion orders agree on the branch-name set. -/
theorem name_set_deterministic_without_empty_pages_witness :
    ("x" ∈ (get_branch_details cexDetailOf
        (cexPage1.map refOfJson ++
          List.replicate 9 (BranchRef.mk "x" "y"))).map (fun d => d.branch_name)) ↔
    ("x" ∈ (get_branch_details cexDetailOf
        (cexPage1.map refOfJson ++
          List.replicate 9 (BranchRef.mk "x" "y"))).map (fun d => d.branch_name)) :=
  name_set_deterministic_without_empty_pages regFetch cexDetailOf
    [2, 3, 4, 5, 6, 7, 8, 9, 10] [3, 2, 4, 5, 6, 7, 8, 9, 10] (by decide)
    (by decide)
    (cexPage1.map refOfJson ++ List.replicate 9 (BranchRef.mk "x" "y"))
    (cexPage1.map refOfJson ++ List.replicate 9 (BranchRef.mk "x" "y"))
    (cexPage1.map refOfJson ++ List.replicate 9 (BranchRef.mk "x" "y"))
    (cexPage1.map refOfJson ++ List.replicate 9 (BranchRef.mk "x" "y"))
    (by decide) (by decide) (List.Perm.refl _) (List.Perm.refl _) "x"
